import Mathlib

/-!
Shallow embedding of the proxy-bot program (`src/main.py`).

The program harvests proxy candidates from text / JSON sources, validates
them by probing a fixed URL, stores working ones in a MongoDB collection
with a unique index on `(ip, port, protocol)`, and can re-test the stored
working set against a user endpoint.

Modelling conventions:
* Network I/O is abstracted by a `ProbeOutcome` oracle passed to each probe
  (the probe either completed with a status code and elapsed time, or raised
  an exception carried as a message string).
* The MongoDB collection is a `List Doc`; the unique index on
  `(ip, port, protocol)` makes `insert_one` raise `DuplicateKeyError`
  exactly when a document with the same triple is present, and
  `update_one` updates the first matching document.
* Wall-clock timestamps (`datetime.now(timezone.utc)`) are `Nat` parameters
  supplied at each call ("now"); elapsed times are `Nat` as well.
* A raised Python exception that no handler catches is `none` at the level
  of the raising function; in `harvest_all`, `asyncio.gather` (with its
  default `return_exceptions=False`) re-raises such an exception, so the
  whole harvest becomes `none`.  In particular the geonode branch's
  `int(item.get("port", 0))` is modelled by `pyInt` on a raw JSON value
  and can fail.
-/

namespace ProxyBot

/-- Constant `VALIDATION_URL` from the config block of `main.py`. -/
def VALIDATION_URL : String := "http://httpbin.org/ip"

/-- Constant `TARGET_ENDPOINT` from the config block of `main.py`. -/
def TARGET_ENDPOINT : String := "http://16.171.170.83:3000/"

/-! ## The `IP_PORT_REGEX` scanner

`IP_PORT_REGEX = re.compile(r"(?:\d{1,3}\.){3}\d{1,3}:\d{2,5}")` and
`IP_PORT_REGEX.findall(raw)`.

Every quantifier in the pattern except the last is followed by a literal
(`.` or `:`) that can never be a digit, so Python's backtracking is
deterministic: a run of 1-3 leading digits must be consumed whole (a run of
4 or more digits fails the group at that start position), and the trailing
`\d{2,5}` greedily takes `min(run, 5)` digits, succeeding iff it gets at
least 2.  `findall` scans left to right, restarting after each
(non-overlapping) match or advancing one character on failure. -/

/-- One `\d{1,3}` group followed by a non-digit: succeeds iff the leading
digit run has length 1..3, returning the digits and the rest. -/
def matchSeg (l : List Char) : Option (List Char × List Char) :=
  let ds := l.takeWhile Char.isDigit
  if ds.length = 0 ∨ 3 < ds.length then none
  else some (ds, l.drop ds.length)

/-- Consume one expected literal character. -/
def expectC (c : Char) : List Char → Option (List Char)
  | [] => none
  | x :: t => if x = c then some t else none

/-- The trailing `\d{2,5}`: greedily takes `min(run, 5)` digits, requiring
at least 2. -/
def matchTail (l : List Char) : Option (List Char × List Char) :=
  let p := (l.takeWhile Char.isDigit).take 5
  if p.length < 2 then none
  else some (p, l.drop p.length)

/-- Attempt to match `IP_PORT_REGEX` at the head of `l`.  On success
returns the characters of the dotted IPv4 part, the characters of the port
part, and the remaining input after the match (the `ip, port =
ip_port.split(":")` of `harvest_source` is the same decomposition, since a
match contains exactly one `:`). -/
def matchAt (l : List Char) : Option (List Char × List Char × List Char) :=
  (matchSeg l).bind fun s1 =>
  (expectC '.' s1.2).bind fun r1 =>
  (matchSeg r1).bind fun s2 =>
  (expectC '.' s2.2).bind fun r2 =>
  (matchSeg r2).bind fun s3 =>
  (expectC '.' s3.2).bind fun r3 =>
  (matchSeg r3).bind fun s4 =>
  (expectC ':' s4.2).bind fun r4 =>
  (matchTail r4).map fun pt =>
  (s1.1 ++ '.' :: s2.1 ++ '.' :: s3.1 ++ '.' :: s4.1, pt.1, pt.2)

/-- The `findall` scan: try a match at every position, left to right,
non-overlapping.  Fuel is the input length; each step either advances one
character or consumes a whole (nonempty) match, so the fuel never runs out
(`matchAt_rest_lt` below). -/
def findPairsAux : Nat → List Char → List (List Char × List Char)
  | 0, _ => []
  | _ + 1, [] => []
  | fuel + 1, x :: t =>
    match matchAt (x :: t) with
    | some (ip, p, rest) => (ip, p) :: findPairsAux fuel rest
    | none => findPairsAux fuel t

/-- All `(ip chars, port chars)` pairs of `IP_PORT_REGEX.findall`. -/
def findPairs (l : List Char) : List (List Char × List Char) :=
  findPairsAux l.length l

/-- Python `int` on a string of decimal digits (leading zeros allowed). -/
def digitsToNat (l : List Char) : Nat :=
  l.foldl (fun acc c => 10 * acc + (c.toNat - '0'.toNat)) 0

/-! ## Candidates and harvesting -/

/-- A harvested candidate `(host, port, protocol)` triple.  The port is a
Python `int`: the text path always yields the non-negative value of a
digit string, but the geonode path passes through whatever
`int(item.get("port", 0))` returns, which can be negative. -/
abbrev Cand := String × Int × String

/-- Substring test, Python's `needle in hay`. -/
def startsWithL : List Char → List Char → Bool
  | [], _ => true
  | _ :: _, [] => false
  | a :: as, b :: bs => a = b && startsWithL as bs

/-- Substring containment (`"http" in name` etc.). -/
def hasSub (needle : List Char) : List Char → Bool
  | [] => startsWithL needle []
  | b :: bs => startsWithL needle (b :: bs) || hasSub needle bs

/-- The protocol hint of `harvest_source`:
`"http" if "http" in name else "socks5" if "socks5" in name else "socks4"`. -/
def protoHint (name : String) : String :=
  if hasSub "http".data name.data then "http"
  else if hasSub "socks5".data name.data then "socks5"
  else "socks4"

/-- A raw JSON value found under the `"port"` key of a geonode entry:
an integer, a string (geonode in fact serves ports as strings), or
`null`.  A missing key is the default `0` of `item.get("port", 0)`, i.e.
`num 0`; floating-point JSON numbers are outside the embedding. -/
inductive RawPort where
  | num (n : Int)
  | str (s : String)
  | null
  deriving DecidableEq, Repr

/-- ASCII whitespace stripping from both ends, as Python `int` applies to
a string argument before parsing. -/
def stripWs (l : List Char) : List Char :=
  ((l.dropWhile Char.isWhitespace).reverse.dropWhile Char.isWhitespace).reverse

/-- Python `int` on a string: surrounding whitespace is stripped, an
optional single `+`/`-` sign precedes a nonempty run of decimal digits
(leading zeros allowed); anything else raises `ValueError` (`none`).
PEP-515 underscores between digits are elided from the model. -/
def pyIntStr (s : String) : Option Int :=
  match stripWs s.data with
  | '+' :: ds => if ds ≠ [] ∧ ds.all Char.isDigit then some (digitsToNat ds : Int) else none
  | '-' :: ds => if ds ≠ [] ∧ ds.all Char.isDigit then some (-(digitsToNat ds : Int)) else none
  | ds => if ds ≠ [] ∧ ds.all Char.isDigit then some (digitsToNat ds : Int) else none

/-- Python `int(x)` on the raw port value: an int is returned unchanged,
a string is parsed by `pyIntStr`, and `None` raises `TypeError`
(`none`). -/
def pyInt : RawPort → Option Int
  | RawPort.num n => some n
  | RawPort.str s => pyIntStr s
  | RawPort.null => none

/-- One entry of the geonode JSON payload: `item.get("ip")`,
`item.get("port", 0)` kept raw (it is parsed by `int` only inside
`harvest_source`), and `item.get("protocols", [])`. -/
structure GeoItem where
  ip : String
  port : RawPort
  protocols : List String
  deriving DecidableEq, Repr

/-- A fetched payload: raw text, or a decoded JSON document
(`fetch` returns `resp.json()` when the content type says JSON,
else `resp.text()`). -/
inductive Payload where
  | text (s : String)
  | json (items : List GeoItem)
  deriving DecidableEq, Repr

/-- Lower-casing, Python `str.lower` on ASCII protocol names. -/
def lowerStr (s : String) : String :=
  String.mk (s.data.map Char.toLower)

/-- The geonode loop of `harvest_source`: for each item,
`port = int(item.get("port", 0))` — an unparseable value raises
(`none`), aborting the whole loop with every earlier item's results
lost — then one candidate per entry of `item["protocols"]`. -/
def geoCands : List GeoItem → Option (List Cand)
  | [] => some []
  | it :: rest =>
    match pyInt it.port, geoCands rest with
    | some p, some cs =>
      some ((it.protocols.map fun pr => (it.ip, p, lowerStr pr)) ++ cs)
    | _, _ => none

/-- Method `ProxyBot.harvest_source(name, url)` after `fetch` has produced
`raw : Option Payload` (`None` on any fetch error or non-200; that case
returns the empty list normally).  The geonode branch requires
`name == "geonode"` and a dict payload and may raise out of `int` on a
malformed port (`none`); any string payload is scanned with
`IP_PORT_REGEX` and tagged with the protocol hint, which never raises;
anything else contributes nothing. -/
def harvest_source (name : String) (raw : Option Payload) : Option (List Cand) :=
  match raw with
  | none => some []
  | some (Payload.json items) =>
    if name = "geonode" then geoCands items
    else some []
  | some (Payload.text s) =>
    some ((findPairs s.data).map fun q =>
      (String.mk q.1, (digitsToNat q.2 : Int), protoHint name))

/-- Keep-first deduplication, modelling the set comprehension
`{(p[0], p[1], p[2]) for p in proxies}` of `harvest_all` (the set has no
intrinsic order; keep-first fixes one listing of it). -/
def dedupAux (seen : List Cand) : List Cand → List Cand
  | [] => []
  | c :: t => if c ∈ seen then dedupAux seen t else c :: dedupAux (c :: seen) t

/-- Deduplicate a candidate list by the full `(host, port, protocol)` triple. -/
def dedup (l : List Cand) : List Cand :=
  dedupAux [] l

/-- The `asyncio.gather` over all `harvest_source` tasks followed by the
`proxies.extend(r)` loop of `harvest_all`: the concatenation of every
source's candidates in source order, or `none` as soon as any source's
task raised (`gather` with the default `return_exceptions=False`
re-raises it, so all other sources' results are lost). -/
def harvestGather : List (String × Option Payload) → Option (List Cand)
  | [] => some []
  | src :: rest =>
    match harvest_source src.1 src.2, harvestGather rest with
    | some c, some ls => some (c ++ ls)
    | _, _ => none

/-- Method `ProxyBot.harvest_all`, with each source's fetch outcome
supplied: gather every source's `harvest_source` result, concatenate,
then deduplicate — or propagate an uncaught exception (`none`). -/
def harvest_all (sources : List (String × Option Payload)) : Option (List Cand) :=
  (harvestGather sources).map dedup

/-! ## Probing -/

/-- The outcome of the single `requests.get` inside a probe: either the
request completed within the timeout with an HTTP status code (elapsed
wall-clock time attached), or it raised (timeout, connection error, ...),
carrying the exception's message string. -/
inductive ProbeOutcome where
  | ok (status : Nat) (elapsed : Nat)
  | err (msg : String)
  deriving DecidableEq, Repr

/-- A document of the `working_proxies` collection, as built by
`validate_proxy`. -/
structure Doc where
  ip : String
  port : Nat
  protocol : String
  is_working : Bool
  response_time : Nat
  last_checked : Nat
  status_code : Nat
  test_url : String
  deriving DecidableEq, Repr

/-- Method `ProxyBot.validate_proxy(proxy_tuple)`, with the network call
abstracted into `outcome` and `datetime.now(timezone.utc)` into `now`.
The function issues exactly one GET (one `outcome` is consumed; there is
no retry): on status 200 it builds the working document, on any other
status it falls through to `return None`, and on any exception it
returns `None`. -/
def validate_proxy (ip : String) (port : Nat) (proto : String)
    (outcome : ProbeOutcome) (now : Nat) : Option Doc :=
  match outcome with
  | ProbeOutcome.ok status elapsed =>
    if status = 200 then
      some { ip := ip, port := port, protocol := proto,
             is_working := true, response_time := elapsed,
             last_checked := now, status_code := status,
             test_url := VALIDATION_URL }
    else none
  | ProbeOutcome.err _ => none

/-! ## The store -/

/-- The `(ip, port, protocol)` identity of a document: the key of the
unique index created in `ProxyBot.__init__`, and the filter of the
fallback `update_one`. -/
def ident (d : Doc) : String × Nat × String :=
  (d.ip, d.port, d.protocol)

/-- The `update_one` semantics: rewrite the first document matching the
predicate, leave everything else in place. -/
def updateFirst (p : Doc → Bool) (f : Doc → Doc) : List Doc → List Doc
  | [] => []
  | d :: t => if p d then f d :: t else d :: updateFirst p f t

/-- Method `ProxyBot.store_proxy(proxy_doc)` against store state `s`, with the
`datetime.now(timezone.utc)` evaluated inside the `DuplicateKeyError`
handler passed as `now`.  `insert_one` raises `DuplicateKeyError` exactly
when a document with the same `(ip, port, protocol)` exists (the unique
index); the handler then runs `update_one` setting only `last_checked`
(to the fresh `now`) and `response_time` (from the incoming document).
Both paths return normally: the duplicate is never surfaced to the
caller. -/
def store_proxy (s : List Doc) (d : Doc) (now : Nat) : List Doc :=
  if s.any fun r => decide (ident r = ident d) then
    updateFirst (fun r => decide (ident r = ident d))
      (fun r => { r with last_checked := now, response_time := d.response_time }) s
  else s ++ [d]

/-- Fold a sequence of `store_proxy` calls (each a document plus the
wall-clock time of that call) over a store state. -/
def storeMany (s : List Doc) (calls : List (Doc × Nat)) : List Doc :=
  calls.foldl (fun st c => store_proxy st c.1 c.2) s

/-- The rows of the store carrying a given `(ip, port, protocol)` identity. -/
def rowsFor (s : List Doc) (i : String × Nat × String) : List Doc :=
  s.filter fun r => decide (ident r = i)

/-- The read used by the endpoint tester:
`self.collection.find({"is_working": True})`. -/
def findWorking (s : List Doc) : List Doc :=
  s.filter fun r => r.is_working

/-! ## Endpoint testing -/

/-- A result dict of `test_proxy_against_endpoint`.  The success-shaped
dict has `status_code`/`response_time` keys and no `error` key; the
exception-shaped dict has an `error` key and neither `status_code` nor
`response_time`; absent keys are `none`. -/
structure TestResult where
  proxy : String
  protocol : String
  status_code : Option Nat
  response_time : Option Nat
  error : Option String
  success : Bool
  endpoint : String
  timestamp : Nat
  deriving DecidableEq, Repr

/-- Method `ProxyBot.test_proxy_against_endpoint(proxy_doc, endpoint_url)`: one
GET through the proxy; if it completes, the result records the status
code and elapsed time with `success = (status == 200)`; if it raises, the
result records the exception message with `success = false` and no
response time.  Every call returns a result dict. -/
def test_proxy_against_endpoint (ip : String) (port : Nat) (proto : String)
    (endpoint_url : String) (outcome : ProbeOutcome) (now : Nat) : TestResult :=
  match outcome with
  | ProbeOutcome.ok status elapsed =>
    { proxy := ip ++ ":" ++ toString port, protocol := proto,
      status_code := some status, response_time := some elapsed,
      error := none, success := status = 200,
      endpoint := endpoint_url, timestamp := now }
  | ProbeOutcome.err msg =>
    { proxy := ip ++ ":" ++ toString port, protocol := proto,
      status_code := none, response_time := none,
      error := some msg, success := false,
      endpoint := endpoint_url, timestamp := now }

/-- Method `ProxyBot.test_all_proxies_against_endpoint(endpoint_url)`: load the
working set, return `[]` if it is empty, else probe every working proxy
and collect one result per proxy (`future.result()` is a nonempty dict,
hence truthy, so the `if result:` filter drops nothing). -/
def test_all_proxies_against_endpoint (s : List Doc) (endpoint_url : String)
    (outcomes : Doc → ProbeOutcome) (now : Nat) : List TestResult :=
  let working := findWorking s
  if working.isEmpty then []
  else working.map fun d =>
    test_proxy_against_endpoint d.ip d.port d.protocol endpoint_url (outcomes d) now

/-! ## Lemmas about deduplication -/

theorem mem_dedupAux (l : List Cand) : ∀ (seen : List Cand) (c : Cand),
    c ∈ dedupAux seen l ↔ (c ∈ l ∧ c ∉ seen) := by
  induction l with
  | nil => intro seen c; simp [dedupAux]
  | cons a t ih =>
    intro seen c
    by_cases hca : c = a
    · subst hca
      by_cases ha : c ∈ seen
      · simp only [dedupAux, if_pos ha, ih, List.mem_cons]; tauto
      · simp only [dedupAux, if_neg ha, List.mem_cons, ih]; tauto
    · by_cases ha : a ∈ seen
      · simp only [dedupAux, if_pos ha, ih, List.mem_cons]; tauto
      · simp only [dedupAux, if_neg ha, List.mem_cons, ih]; tauto

theorem nodup_dedupAux (l : List Cand) : ∀ seen : List Cand,
    (dedupAux seen l).Nodup := by
  induction l with
  | nil => intro seen; simp [dedupAux]
  | cons a t ih =>
    intro seen
    by_cases ha : a ∈ seen
    · simpa [dedupAux, if_pos ha] using ih seen
    · simp only [dedupAux, if_neg ha]
      refine List.nodup_cons.mpr ⟨?_, ih (a :: seen)⟩
      intro hmem
      exact ((mem_dedupAux t (a :: seen) a).mp hmem).2 (List.mem_cons_self a _)

/-! ## Lemmas about the scanner -/

theorem digit_sub_le (c : Char) (h : c.isDigit = true) : c.toNat - '0'.toNat ≤ 9 := by
  simp [Char.isDigit] at h
  have h2 : c.val.toNat ≤ (57 : UInt32).toNat := h.2
  have h3 : c.toNat ≤ 57 := by simpa [Char.toNat] using h2
  have h0 : '0'.toNat = 48 := rfl
  omega

theorem digitsFold_lt (l : List Char) : ∀ acc : Nat, (∀ ch ∈ l, ch.isDigit = true) →
    l.foldl (fun acc c => 10 * acc + (c.toNat - '0'.toNat)) acc < (acc + 1) * 10 ^ l.length := by
  induction l with
  | nil => intro acc _; simp
  | cons c t ih =>
    intro acc hd
    simp only [List.foldl_cons, List.length_cons]
    have hc : c.toNat - '0'.toNat ≤ 9 := digit_sub_le c (hd c (List.mem_cons_self c t))
    have hrec := ih (10 * acc + (c.toNat - '0'.toNat))
      (fun ch hch => hd ch (List.mem_cons_of_mem c hch))
    have hle : 10 * acc + (c.toNat - '0'.toNat) + 1 ≤ (acc + 1) * 10 := by omega
    have heq : (acc + 1) * 10 ^ (t.length + 1) = ((acc + 1) * 10) * 10 ^ t.length := by ring
    rw [heq]
    exact lt_of_lt_of_le hrec (Nat.mul_le_mul_right _ hle)

theorem digitsToNat_lt (l : List Char) (hd : ∀ ch ∈ l, ch.isDigit = true) :
    digitsToNat l < 10 ^ l.length := by
  simpa [digitsToNat] using digitsFold_lt l 0 hd

theorem matchTail_spec (l p rest : List Char) (h : matchTail l = some (p, rest)) :
    p.length ≤ 5 ∧ ∀ ch ∈ p, ch.isDigit = true := by
  unfold matchTail at h
  dsimp only at h
  split at h
  · exact absurd h (by simp)
  · obtain ⟨rfl, rfl⟩ := Prod.mk.injEq .. ▸ Option.some.inj h
    refine ⟨List.length_take_le 5 _, fun ch hch => ?_⟩
    exact List.mem_takeWhile_imp (List.mem_of_mem_take hch)

theorem matchAt_port (l ip p rest : List Char) (h : matchAt l = some (ip, p, rest)) :
    p.length ≤ 5 ∧ ∀ ch ∈ p, ch.isDigit = true := by
  unfold matchAt at h
  simp only [Option.bind_eq_some, Option.map_eq_some'] at h
  obtain ⟨s1, hs1, r1, hr1, s2, hs2, r2, hr2, s3, hs3, r3, hr3, s4, hs4, r4, hr4, pt, hpt, heq⟩ := h
  obtain ⟨pp, rr⟩ := pt
  obtain ⟨-, rfl, -⟩ := Prod.mk.injEq .. ▸ heq
  exact matchTail_spec r4 pp rr hpt

theorem findPairsAux_port : ∀ (fuel : Nat) (l : List Char) (q : List Char × List Char),
    q ∈ findPairsAux fuel l → q.2.length ≤ 5 ∧ ∀ ch ∈ q.2, ch.isDigit = true := by
  intro fuel
  induction fuel with
  | zero => intro l q hq; simp [findPairsAux] at hq
  | succ n ih =>
    intro l q hq
    cases l with
    | nil => simp [findPairsAux] at hq
    | cons x t =>
      rcases hm : matchAt (x :: t) with _ | ⟨ip, p, rest⟩
      · simp only [findPairsAux, hm] at hq
        exact ih t q hq
      · simp only [findPairsAux, hm] at hq
        rcases List.mem_cons.mp hq with rfl | hq'
        · exact matchAt_port _ _ _ _ hm
        · exact ih rest q hq'

theorem takeWhileLen_le (p : Char → Bool) (l : List Char) :
    (l.takeWhile p).length ≤ l.length := by
  induction l with
  | nil => simp
  | cons x t ih =>
    by_cases hx : p x
    · simp only [List.takeWhile_cons, if_pos hx, List.length_cons]
      omega
    · simp [List.takeWhile_cons, hx]

theorem matchSeg_rest_lt (l ds r : List Char) (h : matchSeg l = some (ds, r)) :
    r.length < l.length := by
  unfold matchSeg at h
  dsimp only at h
  split at h
  · exact absurd h (by simp)
  · rename_i hcond
    obtain ⟨rfl, rfl⟩ := Prod.mk.injEq .. ▸ Option.some.inj h
    have h1 : (l.takeWhile Char.isDigit).length ≤ l.length := takeWhileLen_le _ _
    have h2 : (l.takeWhile Char.isDigit).length ≠ 0 := fun hz => hcond (Or.inl hz)
    simp only [List.length_drop]
    omega

theorem expectC_rest_lt (c : Char) (l t : List Char) (h : expectC c l = some t) :
    t.length < l.length := by
  cases l with
  | nil => simp [expectC] at h
  | cons x xs =>
    by_cases hx : x = c
    · simp only [expectC, if_pos hx] at h
      cases h
      simp
    · simp [expectC, hx] at h

theorem matchTail_rest_le (l p rest : List Char) (h : matchTail l = some (p, rest)) :
    rest.length ≤ l.length := by
  unfold matchTail at h
  dsimp only at h
  split at h
  · exact absurd h (by simp)
  · obtain ⟨rfl, rfl⟩ := Prod.mk.injEq .. ▸ Option.some.inj h
    simp only [List.length_drop]
    omega

theorem matchAt_rest_lt (l ip p rest : List Char) (h : matchAt l = some (ip, p, rest)) :
    rest.length < l.length := by
  unfold matchAt at h
  simp only [Option.bind_eq_some, Option.map_eq_some'] at h
  obtain ⟨s1, hs1, r1, hr1, s2, hs2, r2, hr2, s3, hs3, r3, hr3, s4, hs4, r4, hr4, pt, hpt, heq⟩ := h
  obtain ⟨pp, rr⟩ := pt
  obtain ⟨-, -, rfl⟩ := Prod.mk.injEq .. ▸ heq
  have k1 := matchSeg_rest_lt l s1.1 s1.2 hs1
  have k2 := expectC_rest_lt '.' s1.2 r1 hr1
  have k3 := matchSeg_rest_lt r1 s2.1 s2.2 hs2
  have k4 := expectC_rest_lt '.' s2.2 r2 hr2
  have k5 := matchSeg_rest_lt r2 s3.1 s3.2 hs3
  have k6 := expectC_rest_lt '.' s3.2 r3 hr3
  have k7 := matchSeg_rest_lt r3 s4.1 s4.2 hs4
  have k8 := expectC_rest_lt ':' s4.2 r4 hr4
  have k9 := matchTail_rest_le r4 pp rr hpt
  show rr.length < l.length
  omega

/-! ## The claims about harvesting -/

/-- Claim C5: merging candidate lists from all sources and deduplicating
produces a set unique by `(host, port, protocol)`: the deduplicated list
has no duplicates and exactly the merged candidates as members, and for
source A yielding `[("1.2.3.4",80,"http")]` and source B yielding
`[("1.2.3.4",80,"http"), ("5.6.7.8",1080,"socks5")]` the merged,
deduplicated set has exactly 2 entries. -/
theorem dedup_unique_and_example :
    (∀ l : List Cand, (dedup l).Nodup ∧ ∀ c : Cand, c ∈ dedup l ↔ c ∈ l) ∧
    dedup ([("1.2.3.4", 80, "http")] ++
        [("1.2.3.4", 80, "http"), ("5.6.7.8", 1080, "socks5")]) =
      [("1.2.3.4", 80, "http"), ("5.6.7.8", 1080, "socks5")] := by
  refine ⟨fun l => ⟨nodup_dedupAux l [], fun c => ?_⟩, by decide⟩
  simpa using mem_dedupAux l [] c

/-- Claim C6: parsing a text-format source scans the raw text with
`IP_PORT_REGEX` and assigns the protocol from the substring hint on the
source name; for the blob `"1.2.3.4:8080\n5.6.7.8:3128\n"` from any
source whose name contains `"http"`, the candidates are exactly
`[("1.2.3.4",8080,"http"), ("5.6.7.8",3128,"http")]` (the text path
never raises). -/
theorem text_parse_scenario (name : String)
    (h : hasSub "http".data name.data = true) :
    harvest_source name (some (Payload.text "1.2.3.4:8080\n5.6.7.8:3128\n")) =
      some [("1.2.3.4", 8080, "http"), ("5.6.7.8", 3128, "http")] := by
  have hp : protoHint name = "http" := by simp [protoHint, h]
  simp only [harvest_source, hp]
  decide

/-- Witness for C6 at the concrete source name `the_speedx_http`. -/
theorem text_parse_scenario_witness :
    harvest_source "the_speedx_http"
        (some (Payload.text "1.2.3.4:8080\n5.6.7.8:3128\n")) =
      some [("1.2.3.4", 8080, "http"), ("5.6.7.8", 3128, "http")] :=
  text_parse_scenario "the_speedx_http" (by decide)

theorem harvestGather_cons (src : String × Option Payload)
    (rest : List (String × Option Payload)) :
    harvestGather (src :: rest) =
      match harvest_source src.1 src.2, harvestGather rest with
      | some c, some ls => some (c ++ ls)
      | _, _ => none := rfl

theorem harvestGather_skip (name : String) :
    ∀ pre post : List (String × Option Payload),
      harvestGather (pre ++ (name, none) :: post) = harvestGather (pre ++ post) := by
  intro pre
  induction pre with
  | nil =>
    intro post
    rw [List.nil_append, List.nil_append, harvestGather_cons]
    cases hp : harvestGather post with
    | none => simp [harvest_source, hp]
    | some ls => simp [harvest_source, hp]
  | cons y pre' ih =>
    intro post
    simp only [List.cons_append, harvestGather_cons, ih post]

theorem harvestGather_raise (src : String × Option Payload)
    (hsrc : harvest_source src.1 src.2 = none) :
    ∀ pre post : List (String × Option Payload),
      harvestGather (pre ++ src :: post) = none := by
  intro pre
  induction pre with
  | nil =>
    intro post
    rw [List.nil_append, harvestGather_cons, hsrc]
  | cons y pre' ih =>
    intro post
    rw [List.cons_append, harvestGather_cons, ih post]
    cases harvest_source y.1 y.2 <;> rfl

/-- Claim C7 fails on the code: a malformed geonode entry is not skipped —
`int(item.get("port", 0))` raises an uncaught `ValueError`, which
propagates through `asyncio.gather` and aborts the entire harvest, losing
every other source's contribution.  Concretely, with one good text source
and a geonode payload whose port is the unparseable string `"80a"`, the
harvest is an exception (`none`), although the good source alone would
have yielded a candidate. -/
theorem geonode_malformed_port_counterexample :
    harvest_all [("the_speedx_http", some (Payload.text "1.2.3.4:80")),
        ("geonode", some (Payload.json [⟨"5.6.7.8", RawPort.str "80a", ["socks5"]⟩]))] =
      none ∧
    harvest_all [("the_speedx_http", some (Payload.text "1.2.3.4:80"))] =
      some [("1.2.3.4", 80, "http")] := by
  decide

/-- Claim C7 amended: a source whose fetch errored or returned non-200
(its payload is `none`) contributes zero candidates while every other
source's contribution is kept — removing it from the source list leaves
the harvest unchanged — and malformed chunks inside a *text* payload are
silently skipped without aborting that source's contribution; but a
geonode entry whose port value `int` cannot parse raises an uncaught
exception that propagates through `asyncio.gather`, aborting the entire
harvest. -/
theorem failing_source_isolated_amended :
    (∀ (pre post : List (String × Option Payload)) (name : String),
      harvest_all (pre ++ (name, none) :: post) = harvest_all (pre ++ post)) ∧
    harvest_source "openproxylist_http"
        (some (Payload.text "garbage 1.2.3.4:80 999.1.2 junk 1111.2.3.4:9x")) =
      some [("1.2.3.4", 80, "http")] ∧
    (∀ (pre post : List (String × Option Payload)) (src : String × Option Payload),
      harvest_source src.1 src.2 = none →
      harvest_all (pre ++ src :: post) = none) := by
  refine ⟨fun pre post name => ?_, by decide, fun pre post src hsrc => ?_⟩
  · unfold harvest_all
    rw [harvestGather_skip name pre post]
  · unfold harvest_all
    rw [harvestGather_raise src hsrc pre post]
    rfl

/-- Witness for the amended C7: a geonode payload whose port is JSON
`null` (`int(None)` raises `TypeError`) aborts a harvest that also
contains a healthy source. -/
theorem failing_source_isolated_amended_witness :
    harvest_all ([("the_speedx_socks4", some (Payload.text "2.3.4.5:1080"))] ++
        ("geonode", some (Payload.json [⟨"6.6.6.6", RawPort.null, ["http"]⟩])) :: []) =
      none :=
  failing_source_isolated_amended.2.2
    [("the_speedx_socks4", some (Payload.text "2.3.4.5:1080"))] []
    ("geonode", some (Payload.json [⟨"6.6.6.6", RawPort.null, ["http"]⟩]))
    (by decide)

/-- Claim C9 fails on the code: the port pattern of `IP_PORT_REGEX` is
`\d{2,5}`, so harvesting the text `"1.2.3.4:99999"` yields a candidate
with port 99999 > 65535, and `"5.6.7.8:00"` yields port 0 < 1. -/
theorem port_range_counterexample :
    harvest_source "proxylist_download_http" (some (Payload.text "1.2.3.4:99999")) =
      some [("1.2.3.4", 99999, "http")] ∧
    harvest_source "openproxylist_http" (some (Payload.text "5.6.7.8:00")) =
      some [("5.6.7.8", 0, "http")] ∧
    (65535 : Int) < 99999 := by
  decide

/-- Claim C9 amended: every candidate harvested from a text payload has a
port below 100000 (the regex port part is a 2-5 digit decimal string;
leading zeros can make its value as small as 0 and five digits as large
as 99999); the geonode path performs no range check at all. -/
theorem text_port_bound_amended (name s : String) (l : List Cand) (c : Cand)
    (hl : harvest_source name (some (Payload.text s)) = some l)
    (hc : c ∈ l) : c.2.1 < 100000 := by
  simp only [harvest_source, Option.some.injEq] at hl
  subst hl
  simp only [List.mem_map] at hc
  obtain ⟨q, hq, rfl⟩ := hc
  have h := findPairsAux_port s.data.length s.data q (by simpa [findPairs] using hq)
  have hlt := digitsToNat_lt q.2 h.2
  have hpow : 10 ^ q.2.length ≤ 10 ^ 5 := Nat.pow_le_pow_right (by norm_num) h.1
  have hnat : digitsToNat q.2 < 100000 :=
    lt_of_lt_of_le hlt (le_trans hpow (by norm_num))
  show ((digitsToNat q.2 : Nat) : Int) < 100000
  exact_mod_cast hnat

/-- Witness for the amended C9 at a concrete harvested candidate. -/
theorem text_port_bound_amended_witness :
    harvest_source "proxyscrape_socks5" (some (Payload.text "9.9.9.9:1080")) =
      some [("9.9.9.9", 1080, "socks5")] ∧
    (("9.9.9.9", (1080 : Int), "socks5") : Cand).2.1 < 100000 :=
  ⟨by decide, text_port_bound_amended "proxyscrape_socks5" "9.9.9.9:1080"
    [("9.9.9.9", 1080, "socks5")] ("9.9.9.9", 1080, "socks5")
    (by decide) (by decide)⟩

/-! ## Lemmas about the store -/

theorem store_proxy_insert (s : List Doc) (d : Doc) (now : Nat)
    (h : rowsFor s (ident d) = []) : store_proxy s d now = s ++ [d] := by
  unfold store_proxy
  rw [if_neg]
  intro hany
  obtain ⟨r, hr, hd⟩ := List.any_eq_true.mp hany
  have : r ∈ rowsFor s (ident d) := List.mem_filter.mpr ⟨hr, hd⟩
  simp [h] at this

theorem rowsFor_insert (s : List Doc) (d : Doc) (now : Nat)
    (h : rowsFor s (ident d) = []) :
    rowsFor (store_proxy s d now) (ident d) = [d] := by
  rw [store_proxy_insert s d now h]
  unfold rowsFor at h ⊢
  rw [List.filter_append, h]
  simp

theorem updateFirst_filter_cons (p : Doc → Bool) (f : Doc → Doc)
    (hf : ∀ x, p (f x) = p x) :
    ∀ (s : List Doc) (r : Doc) (t : List Doc), s.filter p = r :: t →
    (updateFirst p f s).filter p = f r :: t := by
  intro s
  induction s with
  | nil => intro r t hs; simp at hs
  | cons d u ih =>
    intro r t hs
    by_cases hp : p d = true
    · rw [List.filter_cons_of_pos hp] at hs
      obtain ⟨rfl, rfl⟩ := List.cons.injEq .. ▸ hs
      simp only [updateFirst, if_pos hp]
      rw [List.filter_cons_of_pos (by rw [hf]; exact hp)]
    · have hp' : p d = false := Bool.not_eq_true _ ▸ hp
      rw [List.filter_cons_of_neg (by simp [hp'])] at hs
      simp only [updateFirst, if_neg hp]
      rw [List.filter_cons_of_neg (by simp [hp'])]
      exact ih r t hs

theorem updateFirst_split (p : Doc → Bool) (f : Doc → Doc) :
    ∀ s : List Doc, (∃ r ∈ s, p r = true) →
    ∃ pre r post, s = pre ++ r :: post ∧ (∀ x ∈ pre, p x = false) ∧ p r = true ∧
      updateFirst p f s = pre ++ f r :: post := by
  intro s
  induction s with
  | nil => rintro ⟨r, h, -⟩; cases h
  | cons d t ih =>
    intro hex
    by_cases hp : p d = true
    · exact ⟨[], d, t, rfl, by simp, hp, by simp [updateFirst, hp]⟩
    · have hp' : p d = false := Bool.not_eq_true _ ▸ hp
      obtain ⟨r, hr, hpr⟩ := hex
      rcases List.mem_cons.mp hr with rfl | hr'
      · exact absurd hpr hp
      · obtain ⟨pre, r', post, hdec, hpre, hpr', heq⟩ := ih ⟨r, hr', hpr⟩
        refine ⟨d :: pre, r', post, by rw [hdec]; rfl, ?_, hpr', ?_⟩
        · intro x hx
          rcases List.mem_cons.mp hx with rfl | hx'
          · exact hp'
          · exact hpre x hx'
        · simp only [updateFirst, if_neg hp, heq]
          rfl

theorem store_proxy_update (s : List Doc) (d : Doc) (now : Nat) (r : Doc) (t : List Doc)
    (hs : rowsFor s (ident d) = r :: t) :
    rowsFor (store_proxy s d now) (ident d) =
      ({ r with last_checked := now, response_time := d.response_time }) :: t := by
  have hmem : r ∈ rowsFor s (ident d) := hs ▸ List.mem_cons_self r t
  have hr := List.mem_filter.mp hmem
  unfold store_proxy rowsFor
  rw [if_pos (List.any_eq_true.mpr ⟨r, hr.1, hr.2⟩)]
  exact updateFirst_filter_cons (fun x => decide (ident x = ident d))
    (fun x => { x with last_checked := now, response_time := d.response_time })
    (fun x => rfl) s r t hs

theorem rows_storeMany_aux : ∀ (calls : List (Doc × Nat)) (s : List Doc) (i : String × Nat × String),
    (∀ c ∈ calls, ident c.1 = i) → (rowsFor s i).length ≤ 1 →
    (rowsFor (storeMany s calls) i).length ≤ 1 ∧
      (rowsFor (storeMany s calls) i = [] ↔ (calls = [] ∧ rowsFor s i = [])) := by
  intro calls
  induction calls with
  | nil => intro s i _ hinv; exact ⟨hinv, by simp [storeMany]⟩
  | cons c rest ih =>
    intro s i hall hinv
    have hc : ident c.1 = i := hall c (List.mem_cons_self c rest)
    subst hc
    have hstep : (rowsFor (store_proxy s c.1 c.2) (ident c.1)).length ≤ 1 ∧
        rowsFor (store_proxy s c.1 c.2) (ident c.1) ≠ [] := by
      cases hrows : rowsFor s (ident c.1) with
      | nil => rw [rowsFor_insert s c.1 c.2 hrows]; simp
      | cons r t =>
        have ht : t = [] := by rw [hrows] at hinv; simpa using hinv
        subst ht
        rw [store_proxy_update s c.1 c.2 r [] hrows]
        simp
    have hrec := ih (store_proxy s c.1 c.2) (ident c.1)
      (fun x hx => hall x (List.mem_cons_of_mem c hx)) hstep.1
    refine ⟨hrec.1, ?_⟩
    have hne : rowsFor (storeMany (store_proxy s c.1 c.2) rest) (ident c.1) ≠ [] := by
      intro hz
      exact hstep.2 (hrec.2.mp hz).2
    constructor
    · intro hz
      exact absurd hz (by simpa [storeMany] using hne)
    · rintro ⟨hco, -⟩
      exact absurd hco (by simp)

/-! ## The claims about the store -/

/-- Claim C1 fails on the code: the duplicate path of `store_proxy` sets
`last_checked` to the fresh wall-clock time of the update
(`datetime.now(timezone.utc)` evaluated inside the `DuplicateKeyError`
handler), not to the value carried by the record.  After two upserts of
the same identity, with the second record carrying `last_checked = 5` and
the second call running at time 7, the single remaining row has
`last_checked = 7 ≠ 5` (while `response_time = 250` does come from the
record). -/
theorem upsert_last_checked_counterexample :
    rowsFor (storeMany []
        [(⟨"1.2.3.4", 80, "http", true, 100, 1, 200, VALIDATION_URL⟩, 1),
         (⟨"1.2.3.4", 80, "http", true, 250, 5, 200, VALIDATION_URL⟩, 7)])
      (ident ⟨"1.2.3.4", 80, "http", true, 250, 5, 200, VALIDATION_URL⟩) =
      [⟨"1.2.3.4", 80, "http", true, 250, 7, 200, VALIDATION_URL⟩] ∧
    (Doc.last_checked ⟨"1.2.3.4", 80, "http", true, 250, 7, 200, VALIDATION_URL⟩ ≠
      Doc.last_checked ⟨"1.2.3.4", 80, "http", true, 250, 5, 200, VALIDATION_URL⟩) := by
  decide

/-- Claim C1 amended: in a store holding at most one row for the identity
(the unique index invariant), any nonempty sequence of upserts of records
with one identity leaves exactly one row for it; the row's
`response_time` equals the most recent record's, while its `last_checked`
equals the most recent record's `last_checked` only when that call was
the initial insert — on the duplicate path it is the wall-clock time of
the final update. -/
theorem upsert_idempotent_amended (s : List Doc) (d : Doc) (now : Nat)
    (calls : List (Doc × Nat))
    (hall : ∀ c ∈ calls, ident c.1 = ident d)
    (hinv : (rowsFor s (ident d)).length ≤ 1) :
    ∃ r, rowsFor (storeMany s (calls ++ [(d, now)])) (ident d) = [r] ∧
      r.response_time = d.response_time ∧
      if calls = [] ∧ rowsFor s (ident d) = [] then r = d
      else r.last_checked = now := by
  have hsplit : storeMany s (calls ++ [(d, now)]) =
      store_proxy (storeMany s calls) d now := by
    simp [storeMany, List.foldl_append]
  obtain ⟨hlen, hiff⟩ := rows_storeMany_aux calls s (ident d) hall hinv
  by_cases hmid : rowsFor (storeMany s calls) (ident d) = []
  · refine ⟨d, ?_, rfl, ?_⟩
    · rw [hsplit]
      exact rowsFor_insert _ d now hmid
    · rw [if_pos (hiff.mp hmid)]
  · obtain ⟨r, t, hrt⟩ : ∃ (r : Doc) (t : List Doc),
        rowsFor (storeMany s calls) (ident d) = r :: t := by
      cases h : rowsFor (storeMany s calls) (ident d) with
      | nil => exact absurd h hmid
      | cons a b => exact ⟨a, b, rfl⟩
    have ht : t = [] := by rw [hrt] at hlen; simpa using hlen
    subst ht
    refine ⟨{ r with last_checked := now, response_time := d.response_time }, ?_, rfl, ?_⟩
    · rw [hsplit]
      exact store_proxy_update _ d now r [] hrt
    · have hnc : ¬(calls = [] ∧ rowsFor s (ident d) = []) := fun hco => hmid (hiff.mpr hco)
      rw [if_neg hnc]

/-- Witness for the amended C1: two upserts of the same identity into the
empty store leave one row with the second call's `response_time` and the
second call's wall-clock time as `last_checked`. -/
theorem upsert_idempotent_amended_witness :
    ∃ r, rowsFor (storeMany []
        ([(⟨"5.6.7.8", 1080, "socks5", true, 30, 2, 200, VALIDATION_URL⟩, 2)] ++
         [(⟨"5.6.7.8", 1080, "socks5", true, 40, 6, 200, VALIDATION_URL⟩, 8)]))
      (ident ⟨"5.6.7.8", 1080, "socks5", true, 40, 6, 200, VALIDATION_URL⟩) = [r] ∧
      r.response_time =
        Doc.response_time ⟨"5.6.7.8", 1080, "socks5", true, 40, 6, 200, VALIDATION_URL⟩ ∧
      if ([(⟨"5.6.7.8", 1080, "socks5", true, 30, 2, 200, VALIDATION_URL⟩, 2)] : List (Doc × Nat)) = [] ∧
          rowsFor ([] : List Doc)
            (ident ⟨"5.6.7.8", 1080, "socks5", true, 40, 6, 200, VALIDATION_URL⟩) = []
      then r = ⟨"5.6.7.8", 1080, "socks5", true, 40, 6, 200, VALIDATION_URL⟩
      else r.last_checked = 8 :=
  upsert_idempotent_amended [] ⟨"5.6.7.8", 1080, "socks5", true, 40, 6, 200, VALIDATION_URL⟩ 8
    [(⟨"5.6.7.8", 1080, "socks5", true, 30, 2, 200, VALIDATION_URL⟩, 2)]
    (by decide) (by decide)

/-- Claim C4: when an upsert hits an existing row of the same identity,
the fallback update rewrites only `last_checked` and `response_time` of
the first matching row; its other fields (`is_working`, `status_code`,
`test_url`, and the identity itself) and every other row of the store are
unchanged, and the duplicate is never surfaced as an error (`store_proxy`
returns a store state on both paths). -/
theorem duplicate_update_frame (s : List Doc) (d : Doc) (now : Nat)
    (hdup : ∃ r ∈ s, ident r = ident d) :
    ∃ pre r post,
      s = pre ++ r :: post ∧
      (∀ x ∈ pre, ident x ≠ ident d) ∧
      ident r = ident d ∧
      store_proxy s d now =
        pre ++ ({ r with last_checked := now, response_time := d.response_time }) :: post ∧
      ({ r with last_checked := now, response_time := d.response_time }).is_working
        = r.is_working ∧
      ({ r with last_checked := now, response_time := d.response_time }).status_code
        = r.status_code ∧
      ({ r with last_checked := now, response_time := d.response_time }).test_url
        = r.test_url := by
  obtain ⟨r0, hr0, hid0⟩ := hdup
  have hany : (s.any fun x => decide (ident x = ident d)) = true :=
    List.any_eq_true.mpr ⟨r0, hr0, by simp [hid0]⟩
  obtain ⟨pre, r, post, hdecomp, hpre, hr, heq⟩ :=
    updateFirst_split (fun x => decide (ident x = ident d))
      (fun x => { x with last_checked := now, response_time := d.response_time }) s
      ⟨r0, hr0, by simp [hid0]⟩
  refine ⟨pre, r, post, hdecomp, ?_, of_decide_eq_true hr, ?_, rfl, rfl, rfl⟩
  · intro x hx
    exact of_decide_eq_false (hpre x hx)
  · unfold store_proxy
    rw [if_pos hany]
    exact heq

/-- Witness for C4: an upsert of a record over an existing row with the
same identity. -/
theorem duplicate_update_frame_witness :
    ∃ pre r post,
      ([⟨"1.2.3.4", 80, "http", true, 100, 1, 200, VALIDATION_URL⟩] : List Doc)
        = pre ++ r :: post ∧
      (∀ x ∈ pre,
        ident x ≠ ident ⟨"1.2.3.4", 80, "http", true, 111, 4, 200, VALIDATION_URL⟩) ∧
      ident r = ident ⟨"1.2.3.4", 80, "http", true, 111, 4, 200, VALIDATION_URL⟩ ∧
      store_proxy [⟨"1.2.3.4", 80, "http", true, 100, 1, 200, VALIDATION_URL⟩]
          ⟨"1.2.3.4", 80, "http", true, 111, 4, 200, VALIDATION_URL⟩ 9 =
        pre ++ ({ r with last_checked := 9, response_time := Doc.response_time ⟨"1.2.3.4", 80, "http", true, 111, 4, 200, VALIDATION_URL⟩ }) :: post ∧
      ({ r with last_checked := 9, response_time := Doc.response_time ⟨"1.2.3.4", 80, "http", true, 111, 4, 200, VALIDATION_URL⟩ }).is_working = r.is_working ∧
      ({ r with last_checked := 9, response_time := Doc.response_time ⟨"1.2.3.4", 80, "http", true, 111, 4, 200, VALIDATION_URL⟩ }).status_code = r.status_code ∧
      ({ r with last_checked := 9, response_time := Doc.response_time ⟨"1.2.3.4", 80, "http", true, 111, 4, 200, VALIDATION_URL⟩ }).test_url = r.test_url :=
  duplicate_update_frame [⟨"1.2.3.4", 80, "http", true, 100, 1, 200, VALIDATION_URL⟩]
    ⟨"1.2.3.4", 80, "http", true, 111, 4, 200, VALIDATION_URL⟩ 9
    ⟨⟨"1.2.3.4", 80, "http", true, 100, 1, 200, VALIDATION_URL⟩, by simp, rfl⟩

theorem mem_updateFirst (p : Doc → Bool) (f : Doc → Doc) :
    ∀ (s : List Doc) (r : Doc), r ∈ s →
      r ∈ updateFirst p f s ∨ f r ∈ updateFirst p f s := by
  intro s
  induction s with
  | nil => intro r h; cases h
  | cons d t ih =>
    intro r hr
    by_cases hp : p d = true
    · simp only [updateFirst, if_pos hp]
      rcases List.mem_cons.mp hr with rfl | hr'
      · exact Or.inr (List.mem_cons_self _ _)
      · exact Or.inl (List.mem_cons_of_mem _ hr')
    · simp only [updateFirst, if_neg hp]
      rcases List.mem_cons.mp hr with rfl | hr'
      · exact Or.inl (List.mem_cons_self _ _)
      · rcases ih r hr' with h | h
        · exact Or.inl (List.mem_cons_of_mem _ h)
        · exact Or.inr (List.mem_cons_of_mem _ h)

theorem store_step_preserves (s : List Doc) (d : Doc) (now : Nat) (r : Doc)
    (hr : r ∈ s) :
    ∃ r' ∈ store_proxy s d now,
      ident r' = ident r ∧ r'.is_working = r.is_working := by
  unfold store_proxy
  by_cases hany : (s.any fun x => decide (ident x = ident d)) = true
  · rw [if_pos hany]
    rcases mem_updateFirst (fun x => decide (ident x = ident d))
        (fun x => { x with last_checked := now, response_time := d.response_time })
        s r hr with h | h
    · exact ⟨r, h, rfl, rfl⟩
    · exact ⟨_, h, rfl, rfl⟩
  · rw [if_neg hany]
    exact ⟨r, List.mem_append_left _ hr, rfl, rfl⟩

/-- Claim C10: store membership and `is_working` are monotone.  The only
collection writes in the program are `store_proxy` calls (`insert_one`
plus the `update_one` fallback touching only `last_checked` and
`response_time`); nothing deletes a row or changes `is_working`, so once
a working row is persisted, a row of the same identity with
`is_working = true` remains in the working set returned by the endpoint
tester's `find({"is_working": True})` after any further sequence of
upserts. -/
theorem store_monotone (s : List Doc) (calls : List (Doc × Nat)) (r : Doc)
    (hr : r ∈ s) (hw : r.is_working = true) :
    ∃ r' ∈ findWorking (storeMany s calls),
      ident r' = ident r ∧ r'.is_working = true := by
  induction calls generalizing s r with
  | nil => exact ⟨r, List.mem_filter.mpr ⟨hr, hw⟩, rfl, hw⟩
  | cons c rest ih =>
    obtain ⟨r1, hr1, hid1, hw1⟩ := store_step_preserves s c.1 c.2 r hr
    obtain ⟨r', hr', hid', hw'⟩ := ih (store_proxy s c.1 c.2) r1 hr1 (hw1.trans hw)
    exact ⟨r', hr', hid'.trans hid1, hw'⟩

/-- Witness for C10: a working row stays in the working set across two
further upserts (one of the same identity, one of a new identity). -/
theorem store_monotone_witness :
    ∃ r' ∈ findWorking (storeMany
        [⟨"9.9.9.9", 3128, "http", true, 50, 3, 200, VALIDATION_URL⟩]
        [(⟨"9.9.9.9", 3128, "http", true, 60, 4, 200, VALIDATION_URL⟩, 5),
         (⟨"7.7.7.7", 8080, "socks4", true, 70, 6, 200, VALIDATION_URL⟩, 7)]),
      ident r' = ident ⟨"9.9.9.9", 3128, "http", true, 50, 3, 200, VALIDATION_URL⟩ ∧
      r'.is_working = true :=
  store_monotone [⟨"9.9.9.9", 3128, "http", true, 50, 3, 200, VALIDATION_URL⟩]
    [(⟨"9.9.9.9", 3128, "http", true, 60, 4, 200, VALIDATION_URL⟩, 5),
     (⟨"7.7.7.7", 8080, "socks4", true, 70, 6, 200, VALIDATION_URL⟩, 7)]
    ⟨"9.9.9.9", 3128, "http", true, 50, 3, 200, VALIDATION_URL⟩
    (List.mem_singleton.mpr rfl) rfl

/-! ## The claims about probing -/

/-- Claim C2: the harvest-path validator returns a record exactly when
the single GET through the proxy completed within the timeout with HTTP
status 200, and then the record has `is_working = true`, the elapsed
wall-clock time, the status code and the current UTC timestamp; a
network error, timeout, or non-200 status yields `None`.  The model
consumes exactly one probe outcome: there is no retry inside the probe. -/
theorem validate_proxy_success_iff (ip : String) (port : Nat) (proto : String)
    (outcome : ProbeOutcome) (now : Nat) (r : Doc) :
    validate_proxy ip port proto outcome now = some r ↔
      (outcome = ProbeOutcome.ok 200 r.response_time ∧
       r.ip = ip ∧ r.port = port ∧ r.protocol = proto ∧ r.is_working = true ∧
       r.last_checked = now ∧ r.status_code = 200 ∧ r.test_url = VALIDATION_URL) := by
  cases outcome with
  | ok status elapsed =>
    by_cases hs : status = 200
    · subst hs
      constructor
      · intro h
        obtain rfl := Option.some.inj h
        exact ⟨rfl, rfl, rfl, rfl, rfl, rfl, rfl, rfl⟩
      · rintro ⟨hout, h1, h2, h3, h4, h5, h6, h7⟩
        obtain rfl : elapsed = r.response_time := by
          injection hout
        cases r
        simp_all [validate_proxy]
    · simp only [validate_proxy, if_neg hs]
      constructor
      · intro h
        exact absurd h (by simp)
      · rintro ⟨hout, -⟩
        injection hout with h200 _
        exact absurd h200 hs
  | err msg =>
    simp [validate_proxy]

/-- Witness for C2: a 200 probe at 3 elapsed units produces exactly the
working record. -/
theorem validate_proxy_success_iff_witness :
    validate_proxy "2.2.2.2" 3128 "http" (ProbeOutcome.ok 200 3) 11 =
      some ⟨"2.2.2.2", 3128, "http", true, 3, 11, 200, VALIDATION_URL⟩ :=
  (validate_proxy_success_iff "2.2.2.2" 3128 "http" (ProbeOutcome.ok 200 3) 11
    ⟨"2.2.2.2", 3128, "http", true, 3, 11, 200, VALIDATION_URL⟩).mpr
    ⟨rfl, rfl, rfl, rfl, rfl, rfl, rfl, rfl⟩

/-- Claim C3 fails on the code: a non-200 response on the endpoint-test
path is not an exception, so the result record carries the status code
and the elapsed response time, `success = false`, and no error message —
contrary to the claim that every probe failure (including non-200)
produces a record with the error message as a string and no response
time.  Concretely, a status-500 probe taking 2 units yields
`success = false`, `error = none`, `response_time = some 2`. -/
theorem endpoint_nonzero_status_counterexample :
    (test_proxy_against_endpoint "1.2.3.4" 80 "http" TARGET_ENDPOINT
        (ProbeOutcome.ok 500 2) 0).success = false ∧
    (test_proxy_against_endpoint "1.2.3.4" 80 "http" TARGET_ENDPOINT
        (ProbeOutcome.ok 500 2) 0).error = none ∧
    (test_proxy_against_endpoint "1.2.3.4" 80 "http" TARGET_ENDPOINT
        (ProbeOutcome.ok 500 2) 0).response_time = some 2 ∧
    (test_proxy_against_endpoint "1.2.3.4" 80 "http" TARGET_ENDPOINT
        (ProbeOutcome.ok 500 2) 0).status_code = some 500 := by
  decide

/-- Claim C3 amended: on the endpoint-test path an exception (timeout or
connection error) produces a record with the error message string,
`success = false`, no response time and no status code; a completed
probe with non-200 status produces a record with `success = false`, its
status code and elapsed response time, and no error message; and every
attempt yields exactly one result record that is reported — the sweep
returns one record per working proxy, never dropping any. -/
theorem endpoint_result_records_amended :
    (∀ (ip : String) (port : Nat) (proto ep msg : String) (now : Nat),
      (test_proxy_against_endpoint ip port proto ep (ProbeOutcome.err msg) now).error
          = some msg ∧
      (test_proxy_against_endpoint ip port proto ep (ProbeOutcome.err msg) now).success
          = false ∧
      (test_proxy_against_endpoint ip port proto ep (ProbeOutcome.err msg) now).response_time
          = none ∧
      (test_proxy_against_endpoint ip port proto ep (ProbeOutcome.err msg) now).status_code
          = none) ∧
    (∀ (ip : String) (port : Nat) (proto ep : String) (status elapsed now : Nat),
      status ≠ 200 →
      (test_proxy_against_endpoint ip port proto ep (ProbeOutcome.ok status elapsed) now).success
          = false ∧
      (test_proxy_against_endpoint ip port proto ep (ProbeOutcome.ok status elapsed) now).error
          = none ∧
      (test_proxy_against_endpoint ip port proto ep (ProbeOutcome.ok status elapsed) now).response_time
          = some elapsed) ∧
    (∀ (s : List Doc) (ep : String) (outcomes : Doc → ProbeOutcome) (now : Nat),
      (test_all_proxies_against_endpoint s ep outcomes now).length
        = (findWorking s).length) := by
  refine ⟨fun ip port proto ep msg now => ⟨rfl, rfl, rfl, rfl⟩,
    fun ip port proto ep status elapsed now hs => ⟨?_, rfl, rfl⟩,
    fun s ep outcomes now => ?_⟩
  · simp [test_proxy_against_endpoint, hs]
  · unfold test_all_proxies_against_endpoint
    by_cases h : (findWorking s).isEmpty = true
    · rw [if_pos h, List.isEmpty_iff.mp h]
      rfl
    · rw [if_neg h, List.length_map]

/-- Witness for the amended C3 at a concrete non-200 probe and a concrete
empty sweep. -/
theorem endpoint_result_records_amended_witness :
    (test_proxy_against_endpoint "4.4.4.4" 8080 "socks5" TARGET_ENDPOINT
        (ProbeOutcome.ok 404 6) 1).success = false ∧
    (test_all_proxies_against_endpoint
        [⟨"4.4.4.4", 8080, "socks5", false, 9, 9, 404, TARGET_ENDPOINT⟩]
        TARGET_ENDPOINT (fun _ => ProbeOutcome.err "timeout") 2).length =
      (findWorking [⟨"4.4.4.4", 8080, "socks5", false, 9, 9, 404, TARGET_ENDPOINT⟩]).length :=
  ⟨(endpoint_result_records_amended.2.1 "4.4.4.4" 8080 "socks5" TARGET_ENDPOINT 404 6 1
      (by decide)).1,
   endpoint_result_records_amended.2.2
      [⟨"4.4.4.4", 8080, "socks5", false, 9, 9, 404, TARGET_ENDPOINT⟩]
      TARGET_ENDPOINT (fun _ => ProbeOutcome.err "timeout") 2⟩

end ProxyBot
